import Mathlib

/-!
# Message display widget (`src/messagedisplaywidget.cpp`)

A shallow embedding of `MessageDisplayWidget`: the text transforms
(`toHtmlEscaped`, `urlify`, the newline replacement), the row factory
`createNewRow`, the three public operations that add content
(`appendMessage`, `prependMessage`, `appendAction`) and the scroll handler
`moveScrollBarToBottom`.

Strings (`QString`) are lists of characters.  The widget is a record holding the
vertical layout (a list of rows and separator lines, top to bottom), the
`lastMessageIsOurs` flag, whether `rangeChanged` is connected to
`moveScrollBarToBottom`, the animation object (absent when the constructor did
not create it) and the scrollbar position.  Purely cosmetic toolkit calls
(alignment, size policies, margins, elision) are not part of the model.
-/

namespace MessageDisplay

/-- A `QString`, as the list of its characters. -/
abbrev QString := List Char

/-! ## Regular expressions: the fragment used by `urlify` -/

/-- Syntax of the regular expressions that occur in the file: literal characters, the
class `\S`, concatenation, alternation (left alternative first), greedy `?` and greedy `+`. -/
inductive Pattern where
  | lit (c : Char)
  | nonSpace
  | seq (a b : Pattern)
  | alt (a b : Pattern)
  | opt (a : Pattern)
  | plus (a : Pattern)
  deriving Repr

/-- First success of two backtracking alternatives. -/
def orTry {α : Type} (x y : Option α) : Option α :=
  match x with
  | some r => some r
  | none => y

/-- Greedy repetition of a one-step matcher `m`, at least once: after each repetition that
consumed input, further repetitions are tried before the continuation `k`.  The counter bounds
the number of repetitions by the length of the input. -/
def plusLoop (m : QString → (QString → Option QString) → Option QString) :
    Nat → QString → (QString → Option QString) → Option QString
  | 0, _, _ => none
  | n + 1, s, k =>
    m s (fun rest =>
      if rest.length < s.length then orTry (plusLoop m n rest k) (k rest) else k rest)

/-- Backtracking matcher in continuation-passing style: `matchK isSpace p s k` matches `p` at
the head of `s` and hands the unconsumed input to `k`; `none` is failure, which makes the
caller try its next alternative.  `isSpace` is the character class `\s`. -/
def matchK (isSpace : Char → Bool) : Pattern → QString → (QString → Option QString) →
    Option QString
  | .lit c, s, k =>
    match s with
    | [] => none
    | d :: rest => if d = c then k rest else none
  | .nonSpace, s, k =>
    match s with
    | [] => none
    | d :: rest => if isSpace d then none else k rest
  | .seq a b, s, k => matchK isSpace a s (fun rest => matchK isSpace b rest k)
  | .alt a b, s, k => orTry (matchK isSpace a s k) (matchK isSpace b s k)
  | .opt a, s, k => orTry (matchK isSpace a s k) (k s)
  | .plus a, s, k => plusLoop (matchK isSpace a) (s.length + 1) s k

/-- Length of the match of `p` that starts at the head of `s`, if there is one. -/
def matchAt (isSpace : Char → Bool) (p : Pattern) (s : QString) : Option Nat :=
  (matchK isSpace p s some).map (fun rest => s.length - rest.length)

/-- Worker of `QString::replace(QRegularExpression, after)`: scans the input from left to
right; the counter is the number of characters still to be skipped because they belong to
the match that was just replaced.  At a position where the pattern matches a non-empty
text, the expansion of `after` for that text is emitted and the search resumes behind the
match; elsewhere the character is copied.  Matches of the empty text are not modelled: the
pattern of this file has none (`matchAt_urlPattern_pos`). -/
def replaceGo (isSpace : Char → Bool) (p : Pattern) (after : QString → QString) :
    QString → Nat → QString
  | [], _ => []
  | _ :: cs, skip + 1 => replaceGo isSpace p after cs skip
  | c :: cs, 0 =>
    match matchAt isSpace p (c :: cs) with
    | some (n + 1) => after ((c :: cs).take (n + 1)) ++ replaceGo isSpace p after cs n
    | _ => c :: replaceGo isSpace p after cs 0

/-- Global replacement `s.replace(QRegularExpression(p), after)`. -/
def replaceRegex (isSpace : Char → Bool) (p : Pattern) (after : QString → QString)
    (s : QString) : QString :=
  replaceGo isSpace p after s 0

/-- The literal text `c₀ c₁ …` as a pattern. -/
def Pattern.text : Char → List Char → Pattern
  | c, [] => .lit c
  | c, d :: ds => .seq (.lit c) (Pattern.text d ds)

/-- The pattern `((?:https?|ftp)://\S+)` of `urlify`.  Its only capture group encloses the
whole pattern, so group 1 is the matched text. -/
def urlPattern : Pattern :=
  .seq (.alt (.seq (Pattern.text 'h' ['t', 't', 'p']) (.opt (.lit 's')))
             (Pattern.text 'f' ['t', 'p']))
    (.seq (Pattern.text ':' ['/', '/']) (.plus .nonSpace))

/-- The replacement text `<a href="\1">\1</a>` of `urlify`, expanded for group 1 `= u`. -/
def anchor (u : QString) : QString :=
  "<a href=\"".toList ++ u ++ "\">".toList ++ u ++ "</a>".toList

/-- `MessageDisplayWidget::urlify`. -/
def urlify (isSpace : Char → Bool) (string : QString) : QString :=
  replaceRegex isSpace urlPattern anchor string

/-- A whitespace class for concrete inputs: blank, tab, line feed, vertical tab, form feed,
carriage return. -/
def asciiSpace (c : Char) : Bool :=
  c = ' ' || (9 ≤ c.toNat && c.toNat ≤ 13)

/-- `QString::toHtmlEscaped` (toolkit function): `<`, `>`, `&` and `"` become `&lt;`, `&gt;`,
`&amp;` and `&quot;`; every other character is copied. -/
def toHtmlEscaped : QString → QString
  | [] => []
  | c :: cs =>
    (if c = '<' then "&lt;".toList
     else if c = '>' then "&gt;".toList
     else if c = '&' then "&amp;".toList
     else if c = Char.ofNat 34 then "&quot;".toList
     else [c]) ++ toHtmlEscaped cs

/-- `QString::replace(QChar before, const QString &after)`. -/
def replaceChar (before : Char) (after : QString) : QString → QString
  | [] => []
  | c :: cs => (if c = before then after else [c]) ++ replaceChar before after cs

/-! ## The widget -/

/-- External collaborators of the widget: the emoji substitution `Smileypack::smilify` and the
whitespace class of the regular-expression engine. -/
structure Env where
  smilify : QString → QString
  isSpace : Char → Bool

/-- Colours given to the message label's palette. -/
inductive Colour where
  | darkGreen
  | red
  deriving DecidableEq, Repr

/-- One message row as built by `createNewRow`: the name label, the message label and the time
label, with the properties the function sets on them. -/
structure Row where
  /-- Text of `nameLabel` (empty unless `setText` is called). -/
  nameText : QString
  /-- The `class` property of `nameLabel`, when set. -/
  nameClass : Option String
  /-- Whether `nameLabel` got the foreground role `QPalette::Mid`. -/
  nameMid : Bool
  /-- The `class` property of `messageLabel`. -/
  messageClass : String
  /-- Text of `messageLabel`. -/
  messageText : QString
  /-- Argument of `messageLabel->setMessageId`, when called. -/
  messageId : Option Int
  /-- Foreground colour of the palette set on `messageLabel`, when set. -/
  messageColour : Option Colour
  /-- Tooltip of `messageLabel`, when set. -/
  toolTip : Option String
  /-- Text of `timeLabel`. -/
  timeText : QString
  deriving DecidableEq, Repr

/-- A widget of the vertical layout: a message row or a separator line (`QFrame::HLine`). -/
inductive Item where
  | row (r : Row)
  | line
  deriving DecidableEq, Repr

/-- Whether a layout item is a separator line. -/
def Item.isLine : Item → Bool
  | .line => true
  | .row _ => false

/-- The `QPropertyAnimation` on `scrollPos`: its two key values and whether it was started. -/
structure Animation where
  duration : Nat
  loopCount : Nat
  keyValue0 : Option Int
  keyValue1 : Option Int
  started : Bool
  deriving DecidableEq, Repr

/-- The vertical scrollbar: its range and its value (with tracking on, the default, the slider
position and the value are the same number). -/
structure ScrollBar where
  minimum : Int
  maximum : Int
  value : Int
  deriving DecidableEq, Repr

/-- `QAbstractSlider::setValue`: the value is bounded to the range of the slider. -/
def ScrollBar.setValue (b : ScrollBar) (v : Int) : ScrollBar :=
  { b with value := max b.minimum (min b.maximum v) }

/-- State of a `MessageDisplayWidget`. -/
structure Widget where
  /-- Items of `mainlayout`, top to bottom. -/
  mainlayout : List Item
  lastMessageIsOurs : Bool
  /-- Whether `rangeChanged` of the vertical scrollbar is connected to
  `moveScrollBarToBottom` (connections are made with `Qt::UniqueConnection`). -/
  scrollConnected : Bool
  /-- The member `animation`; `none` when no object was created for it. -/
  animation : Option Animation
  mScrollPos : Int
  scrollBar : ScrollBar
  deriving DecidableEq, Repr

/-- The constructor, for a given value of the animation setting; `flag` is the initial value
of `lastMessageIsOurs`. -/
def Widget.construct (flag : Bool) (animationEnabled : Bool) : Widget :=
  { mainlayout := []
    lastMessageIsOurs := flag
    scrollConnected := true
    animation :=
      if animationEnabled then
        some { duration := 200, loopCount := 1, keyValue0 := none, keyValue1 := none,
               started := false }
      else none
    mScrollPos := 0
    scrollBar := { minimum := 0, maximum := 0, value := 0 } }

/-- The constructor `MessageDisplayWidget::MessageDisplayWidget`: the flag starts as `true`. -/
def Widget.new (animationEnabled : Bool) : Widget :=
  Widget.construct true animationEnabled

/-- The text computed for the message label:
`Smileypack::smilify(urlify(message.toHtmlEscaped())).replace('\n', "<br>")`. -/
def messageTextOf (env : Env) (message : QString) : QString :=
  replaceChar (Char.ofNat 10) "<br>".toList
    (env.smilify (urlify env.isSpace (toHtmlEscaped message)))

/-- The condition `lastMessageIsOurs != isOur || mainlayout->count() < 1 || messageId < -1`
under which `createNewRow` inserts the name. -/
def nameInserted (w : Widget) (messageId : Int) (isOur : Bool) : Bool :=
  w.lastMessageIsOurs != isOur || decide (w.mainlayout.length < 1) || decide (messageId < -1)

/-- The condition `lastMessageIsOurs != isOur && mainlayout->count() > 0` under which
`createNewRow` creates a separator line. -/
def lineCreated (w : Widget) (isOur : Bool) : Bool :=
  w.lastMessageIsOurs != isOur && decide (w.mainlayout.length > 0)

/-- First part of `createNewRow` (up to the time label): the row with its message label
styled according to `messageId` and the name label still untouched. -/
def styledRow (env : Env) (now message : QString) (messageId : Int) : Row :=
  let messageText := messageTextOf env message
  if messageId < -1 then
    { nameText := [], nameClass := none, nameMid := false
      messageClass := "msgAction"
      messageText := "<i>".toList ++ messageText ++ "</i>".toList
      messageId := none
      messageColour := some .darkGreen
      toolTip := none
      timeText := now }
  else if messageId ≠ 0 then
    { nameText := [], nameClass := none, nameMid := false
      messageClass := "msgMessage"
      messageText := messageText
      messageId := some messageId
      messageColour := none
      toolTip := none
      timeText := now }
  else
    { nameText := [], nameClass := none, nameMid := false
      messageClass := "msgError"
      messageText := "<img src=\":/icons/error.png\" /> ".toList ++ messageText
      messageId := none
      messageColour := some .red
      toolTip := some "Couldn\x27t send the message!"
      timeText := now }

/-- `MessageDisplayWidget::createNewRow`: returns the new row and the widget state after the
call (the separator line, when created, has been added at the end of the layout with
`mainlayout->addWidget(line)` and the flag has been updated).  `now` is the text of
`QTime::currentTime()` read during the call; `messageId` is a C++ `int`, of which only
comparisons with constants are made. -/
def createNewRow (env : Env) (now name message : QString) (messageId : Int) (isOur : Bool)
    (w : Widget) : Row × Widget :=
  let row := styledRow env now message messageId
  if nameInserted w messageId isOur then
    let row := { row with
      nameText := name
      nameClass := some (if isOur then "msgUserName" else "msgFriendName")
      nameMid := isOur }
    let layout := if lineCreated w isOur then w.mainlayout ++ [Item.line] else w.mainlayout
    (row, { w with mainlayout := layout, lastMessageIsOurs := isOur })
  else
    (row, w)

/-- `MessageDisplayWidget::appendMessage`. -/
def appendMessage (env : Env) (now name message : QString) (messageId : Int) (isOur : Bool)
    (w : Widget) : Widget :=
  let w := { w with scrollConnected := true }
  let (row, w) := createNewRow env now name message messageId isOur w
  { w with mainlayout := w.mainlayout ++ [Item.row row] }

/-- `MessageDisplayWidget::prependMessage`. -/
def prependMessage (env : Env) (now name message : QString) (messageId : Int) (isOur : Bool)
    (w : Widget) : Widget :=
  let w := { w with scrollConnected := false }
  let (row, w) := createNewRow env now name message messageId isOur w
  { w with mainlayout := Item.row row :: w.mainlayout }

/-- `MessageDisplayWidget::appendAction`. -/
def appendAction (env : Env) (now name message : QString) (isOur : Bool) (w : Widget) :
    Widget :=
  let w := { w with scrollConnected := true }
  let (row, w) := createNewRow env now ['*'] (name ++ " ".toList ++ message) (-2) isOur w
  { w with mainlayout := w.mainlayout ++ [Item.row row] }

/-- `MessageDisplayWidget::scrollPos`. -/
def scrollPos (w : Widget) : Int :=
  w.mScrollPos

/-- `MessageDisplayWidget::setScrollPos`. -/
def setScrollPos (arg : Int) (w : Widget) : Widget :=
  { w with mScrollPos := arg, scrollBar := w.scrollBar.setValue arg }

/-- `MessageDisplayWidget::moveScrollBarToBottom`, for the value of the animation setting read
during the call.  The result is `none` when the call dereferences the member `animation`
although no object was created for it. -/
def moveScrollBarToBottom (animationEnabled : Bool) (min max : Int) (w : Widget) :
    Option Widget :=
  let _ := min
  if animationEnabled then
    match w.animation with
    | none => none
    | some a =>
      let a : Animation :=
        { a with keyValue0 := some w.scrollBar.value, keyValue1 := some max, started := true }
      some { w with animation := some a }
  else
    some { w with scrollBar := w.scrollBar.setValue max }

/-- `QAbstractSlider::setRange`: the range becomes `[min, max]` and the value is bounded to
it. -/
def ScrollBar.setRange (b : ScrollBar) (min max : Int) : ScrollBar :=
  { minimum := min, maximum := max, value := Max.max min (Min.min max b.value) }

/-- The scrollbar emits `rangeChanged(min, max)`: its range becomes `[min, max]` and, when
the handler is connected, `moveScrollBarToBottom` runs. -/
def rangeChanged (animationEnabled : Bool) (min max : Int) (w : Widget) : Option Widget :=
  let w := { w with scrollBar := w.scrollBar.setRange min max }
  if w.scrollConnected then moveScrollBarToBottom animationEnabled min max w else some w

/-- A call of one of the three operations that add content. -/
inductive Op where
  | appendMessage (now name message : QString) (messageId : Int) (isOur : Bool)
  | prependMessage (now name message : QString) (messageId : Int) (isOur : Bool)
  | appendAction (now name message : QString) (isOur : Bool)
  deriving DecidableEq, Repr

/-- The `isOur` argument of a call. -/
def Op.isOur : Op → Bool
  | .appendMessage _ _ _ _ b => b
  | .prependMessage _ _ _ _ b => b
  | .appendAction _ _ _ b => b

/-- Effect of one call on the widget. -/
def Op.apply (env : Env) (w : Widget) : Op → Widget
  | .appendMessage now name message messageId isOur =>
    MessageDisplay.appendMessage env now name message messageId isOur w
  | .prependMessage now name message messageId isOur =>
    MessageDisplay.prependMessage env now name message messageId isOur w
  | .appendAction now name message isOur =>
    MessageDisplay.appendAction env now name message isOur w

/-- Effect of a sequence of calls, first call first. -/
def run (env : Env) (w : Widget) (ops : List Op) : Widget :=
  ops.foldl (Op.apply env) w

/-- The `isOur` argument of the last call of a sequence. -/
def lastIsOur (ops : List Op) : Option Bool :=
  ops.getLast?.map Op.isOur

/-- Number of separator lines in a layout. -/
def lineCount (layout : List Item) : Nat :=
  (layout.filter Item.isLine).length

/-- An environment for examples: no emoji substitution, ASCII whitespace. -/
def plainEnv : Env :=
  { smilify := id, isSpace := asciiSpace }

/-- The message label is styled as an action: class `msgAction`, text `<i>text</i>`. -/
def Row.IsAction (text : QString) (r : Row) : Prop :=
  r.messageClass = "msgAction" ∧ r.messageText = "<i>".toList ++ text ++ "</i>".toList

/-- The message label is styled as an error: class `msgError`, text prefixed with the error
icon, failure tooltip set. -/
def Row.IsError (text : QString) (r : Row) : Prop :=
  r.messageClass = "msgError" ∧
  r.messageText = "<img src=\":/icons/error.png\" /> ".toList ++ text ∧
  r.toolTip = some "Couldn\x27t send the message!"

/-- The message label is styled as a regular message: class `msgMessage`, the text as it is,
the message id stored on the label. -/
def Row.IsMessage (text : QString) (messageId : Int) (r : Row) : Prop :=
  r.messageClass = "msgMessage" ∧ r.messageText = text ∧ r.messageId = some messageId

/-- Whether a call appends at the bottom (`appendMessage`, `appendAction`). -/
def Op.isAppend : Op → Bool
  | .prependMessage _ _ _ _ _ => false
  | _ => true

/-- The expected shape of a layout for rows with the given `isOur` values, top to bottom
(`true` stands for a separator line, `false` for a row): a separator line exactly between two
neighbouring rows whose `isOur` values differ.  The first argument is the `isOur` of the row
above, if any. -/
def separated : Option Bool → List Bool → List Bool
  | _, [] => []
  | none, b :: bs => false :: separated (some b) bs
  | some a, b :: bs => (if a = b then [false] else [true, false]) ++ separated (some b) bs

/-! ## Vocabulary for the statements about `urlify` -/

/-- The three scheme prefixes of the pattern: `http://`, `https://` and `ftp://`. -/
def schemes : List QString :=
  ["http://".toList, "https://".toList, "ftp://".toList]

/-- The text `u` is a match of the pattern: a scheme prefix followed by one or more
non-whitespace characters. -/
def IsUrl (isSpace : Char → Bool) (u : QString) : Prop :=
  ∃ scheme ∈ schemes, ∃ body : QString,
    body ≠ [] ∧ (∀ c ∈ body, isSpace c = false) ∧ u = scheme ++ body

/-- A match of the pattern starts at the head of `s`. -/
def StartsUrl (isSpace : Char → Bool) (s : QString) : Prop :=
  ∃ u rest, IsUrl isSpace u ∧ s = u ++ rest

/-- A match that is followed by `rest` cannot be extended: `rest` is empty or starts with a
whitespace character. -/
def Maximal (isSpace : Char → Bool) (rest : QString) : Prop :=
  ∀ c r, rest = c :: r → isSpace c = true

/-- A piece of linkified text: a character copied from the input, or a link made from the
matched text `u`. -/
inductive Piece where
  | text (c : Char)
  | link (u : QString)
  deriving DecidableEq, Repr

/-- The output text of a piece, spelled out: the character itself for a text piece; for a link
the opening tag `<a href="`, the matched text `u` as the `href` value, `">`, the same text
`u` as the link text, and the closing tag `</a>`. -/
def Piece.render : Piece → QString
  | .text c => [c]
  | .link u =>
    ['<', 'a', ' ', 'h', 'r', 'e', 'f', '=', Char.ofNat 34] ++ u ++ [Char.ofNat 34, '>'] ++ u ++
      ['<', '/', 'a', '>']

/-- The output text of a list of pieces. -/
def render : List Piece → QString
  | [] => []
  | p :: ps => p.render ++ render ps

/-- The decomposition of the input `s` into its leftmost, non-overlapping, maximal matches
(links) and the characters outside them (texts), in order: a character is a text piece only
when no match starts at it, and a link is a match that cannot be extended. -/
inductive Segmented (isSpace : Char → Bool) : QString → List Piece → Prop where
  | nil : Segmented isSpace [] []
  | text (c : Char) (s : QString) (ps : List Piece) :
      ¬ StartsUrl isSpace (c :: s) → Segmented isSpace s ps →
      Segmented isSpace (c :: s) (Piece.text c :: ps)
  | link (u rest : QString) (ps : List Piece) :
      IsUrl isSpace u → Maximal isSpace rest → Segmented isSpace rest ps →
      Segmented isSpace (u ++ rest) (Piece.link u :: ps)

/-- The characters `<`, `>` and `"`. -/
def isMarkup (c : Char) : Bool :=
  c = '<' || c = '>' || c = Char.ofNat 34

/-- A piece carries no markup character of its own: a text piece is not one, and the matched
text of a link (its `href` value and its link text) contains none. -/
def Piece.Clean : Piece → Prop
  | .text c => isMarkup c = false
  | .link u => ∀ c ∈ u, isMarkup c = false

/-- Rest of the input behind a maximal run of one or more non-whitespace characters. -/
def afterRun (isSpace : Char → Bool) : QString → Option QString
  | [] => none
  | c :: r => if isSpace c then none else some (r.dropWhile (fun d => !isSpace d))

/-- Rest of the input behind the literal text `p`, when the input starts with it. -/
def stripPrefix : List Char → QString → Option QString
  | [], s => some s
  | _ :: _, [] => none
  | c :: cs, d :: s => if d = c then stripPrefix cs s else none

/-- Rest of the input behind the scheme prefix, when the input starts with one. -/
def stripScheme (s : QString) : Option QString :=
  orTry (stripPrefix "http://".toList s)
    (orTry (stripPrefix "https://".toList s) (stripPrefix "ftp://".toList s))

/-! ## Rows, separators and the last-sender flag -/

/-- The layout after `createNewRow`: the old layout, followed by a separator line when one is
created. -/
theorem createNewRow_layout (env : Env) (now name message : QString) (messageId : Int)
    (isOur : Bool) (w : Widget) :
    (createNewRow env now name message messageId isOur w).2.mainlayout =
      w.mainlayout ++ (if lineCreated w isOur then [Item.line] else []) := by
  unfold createNewRow
  by_cases h : nameInserted w messageId isOur = true
  · by_cases h2 : lineCreated w isOur = true <;> simp [h, h2]
  · have h2 : lineCreated w isOur = false := by
      simp only [nameInserted, lineCreated] at h ⊢
      cases hb : (w.lastMessageIsOurs != isOur) <;> simp_all
    simp [h, h2]

/-- After `createNewRow` the flag is the `isOur` of the call, whether or not the name was
inserted. -/
theorem createNewRow_flag (env : Env) (now name message : QString) (messageId : Int)
    (isOur : Bool) (w : Widget) :
    (createNewRow env now name message messageId isOur w).2.lastMessageIsOurs = isOur := by
  unfold createNewRow
  by_cases h : nameInserted w messageId isOur = true
  · simp [h]
  · simp only [h, if_false]
    simp only [nameInserted] at h
    cases hw : w.lastMessageIsOurs <;> cases isOur <;> simp_all

/-- `createNewRow` touches neither the connection, nor the animation, nor the scroll state. -/
theorem createNewRow_other (env : Env) (now name message : QString) (messageId : Int)
    (isOur : Bool) (w : Widget) :
    (createNewRow env now name message messageId isOur w).2.scrollConnected = w.scrollConnected ∧
    (createNewRow env now name message messageId isOur w).2.animation = w.animation ∧
    (createNewRow env now name message messageId isOur w).2.mScrollPos = w.mScrollPos ∧
    (createNewRow env now name message messageId isOur w).2.scrollBar = w.scrollBar := by
  unfold createNewRow
  by_cases h : nameInserted w messageId isOur = true <;> simp [h]

/-- The message label and the time label of the returned row are those of `styledRow`. -/
theorem createNewRow_fst_style (env : Env) (now name message : QString) (messageId : Int)
    (isOur : Bool) (w : Widget) :
    (createNewRow env now name message messageId isOur w).1.messageClass =
      (styledRow env now message messageId).messageClass ∧
    (createNewRow env now name message messageId isOur w).1.messageText =
      (styledRow env now message messageId).messageText ∧
    (createNewRow env now name message messageId isOur w).1.messageId =
      (styledRow env now message messageId).messageId ∧
    (createNewRow env now name message messageId isOur w).1.toolTip =
      (styledRow env now message messageId).toolTip ∧
    (createNewRow env now name message messageId isOur w).1.messageColour =
      (styledRow env now message messageId).messageColour ∧
    (createNewRow env now name message messageId isOur w).1.timeText =
      (styledRow env now message messageId).timeText := by
  unfold createNewRow
  by_cases h : nameInserted w messageId isOur = true <;> simp [h]

theorem apply_flag (env : Env) (w : Widget) (op : Op) :
    (op.apply env w).lastMessageIsOurs = op.isOur := by
  cases op <;>
    simp [Op.apply, Op.isOur, appendMessage, prependMessage, appendAction, createNewRow_flag]

theorem apply_layout_ne_nil (env : Env) (w : Widget) (op : Op) :
    (op.apply env w).mainlayout ≠ [] := by
  cases op <;> simp [Op.apply, appendMessage, prependMessage, appendAction]

theorem run_append (env : Env) (w : Widget) (ops : List Op) (op : Op) :
    run env w (ops ++ [op]) = op.apply env (run env w ops) := by
  simp [run, List.foldl_append]

theorem lastIsOur_append (ops : List Op) (op : Op) : lastIsOur (ops ++ [op]) = some op.isOur := by
  simp [lastIsOur]

/-- After at least one call the layout is non-empty and the flag is the `isOur` of the last
call; after no call the layout is empty. -/
theorem run_invariant (env : Env) (w : Widget) (ops : List Op) :
    (ops = [] → run env w ops = w) ∧
    (ops ≠ [] → (run env w ops).mainlayout ≠ [] ∧
      some (run env w ops).lastMessageIsOurs = lastIsOur ops) := by
  refine ⟨fun h => by simp [h, run], fun h => ?_⟩
  obtain ⟨ops', op, rfl⟩ : ∃ ops' op, ops = ops' ++ [op] :=
    ⟨ops.dropLast, ops.getLast h, (List.dropLast_append_getLast h).symm⟩
  rw [run_append, lastIsOur_append, apply_flag]
  exact ⟨apply_layout_ne_nil _ _ _, rfl⟩

/-- C1: in every state reached from the empty display by a sequence of `appendMessage`,
`prependMessage` and `appendAction` calls (whatever the initial flag and the animation
setting), `createNewRow` adds exactly one separator line to the layout when the layout is
non-empty and `isOur` differs from the `isOur` of the most recently created row, and leaves
the layout unchanged otherwise. -/
theorem createNewRow_separator (env : Env) (flag animationEnabled : Bool) (ops : List Op)
    (now name message : QString) (messageId : Int) (isOur : Bool) :
    (createNewRow env now name message messageId isOur
        (run env (Widget.construct flag animationEnabled) ops)).2.mainlayout =
      (run env (Widget.construct flag animationEnabled) ops).mainlayout ++
        (if (run env (Widget.construct flag animationEnabled) ops).mainlayout ≠ [] ∧
            lastIsOur ops = some (!isOur) then [Item.line] else []) ∧
    lineCount (createNewRow env now name message messageId isOur
        (run env (Widget.construct flag animationEnabled) ops)).2.mainlayout =
      lineCount (run env (Widget.construct flag animationEnabled) ops).mainlayout +
        (if (run env (Widget.construct flag animationEnabled) ops).mainlayout ≠ [] ∧
            lastIsOur ops = some (!isOur) then 1 else 0) := by
  have key : lineCreated (run env (Widget.construct flag animationEnabled) ops) isOur = true ↔
      ((run env (Widget.construct flag animationEnabled) ops).mainlayout ≠ [] ∧
        lastIsOur ops = some (!isOur)) := by
    by_cases hops : ops = []
    · subst hops
      simp [run, Widget.construct, lineCreated]
    · obtain ⟨hne, hflag⟩ := (run_invariant env (Widget.construct flag animationEnabled) ops).2 hops
      rw [← hflag]
      simp only [lineCreated, Bool.and_eq_true, decide_eq_true_eq, Option.some.injEq]
      constructor
      · rintro ⟨h1, -⟩
        refine ⟨hne, ?_⟩
        cases hw : (run env (Widget.construct flag animationEnabled) ops).lastMessageIsOurs <;>
          cases isOur <;> simp_all
      · rintro ⟨-, h2⟩
        refine ⟨?_, List.length_pos.mpr hne⟩
        rw [h2]
        cases isOur <;> rfl
  rw [createNewRow_layout]
  by_cases h : lineCreated (run env (Widget.construct flag animationEnabled) ops) isOur = true
  · have h2 := key.mp h
    simp only [h, if_true]
    rw [if_pos h2, if_pos h2]
    simp [lineCount, Item.isLine]
  · have h2 : ¬ ((run env (Widget.construct flag animationEnabled) ops).mainlayout ≠ [] ∧
        lastIsOur ops = some (!isOur)) := fun h3 => h (key.mpr h3)
    simp only [h]
    rw [if_neg h2, if_neg h2]
    simp

/-- C2: the name label of the row made by `createNewRow` is set to `name` (and gets its
style class) exactly when the layout is empty, or `isOur` differs from the stored flag, or
`messageId < -1`; otherwise it stays empty and unstyled.  In particular, in a state reached by
a sequence of calls whose last call had the same `isOur`, a regular or error message
(`-1 ≤ messageId`) gets no name. -/
theorem createNewRow_name (env : Env) (now name message : QString) (messageId : Int)
    (isOur : Bool) :
    (∀ w : Widget,
      (createNewRow env now name message messageId isOur w).1.nameText =
        (if w.mainlayout = [] ∨ w.lastMessageIsOurs ≠ isOur ∨ messageId < -1 then name else []) ∧
      ((createNewRow env now name message messageId isOur w).1.nameClass.isSome = true ↔
        (w.mainlayout = [] ∨ w.lastMessageIsOurs ≠ isOur ∨ messageId < -1))) ∧
    (∀ (w : Widget) (ops : List Op), lastIsOur ops = some isOur → -1 ≤ messageId →
      (createNewRow env now name message messageId isOur (run env w ops)).1.nameText = [] ∧
      (createNewRow env now name message messageId isOur (run env w ops)).1.nameClass = none) := by
  have cond : ∀ w : Widget, nameInserted w messageId isOur = true ↔
      (w.mainlayout = [] ∨ w.lastMessageIsOurs ≠ isOur ∨ messageId < -1) := by
    intro w
    simp only [nameInserted, Bool.or_eq_true, decide_eq_true_eq, bne_iff_ne, ne_eq,
      Nat.lt_one_iff, List.length_eq_zero]
    tauto
  have unstyled : (styledRow env now message messageId).nameText = [] ∧
      (styledRow env now message messageId).nameClass = none := by
    unfold styledRow
    split_ifs <;> exact ⟨rfl, rfl⟩
  have main : ∀ w : Widget,
      (createNewRow env now name message messageId isOur w).1.nameText =
        (if w.mainlayout = [] ∨ w.lastMessageIsOurs ≠ isOur ∨ messageId < -1 then name else []) ∧
      ((createNewRow env now name message messageId isOur w).1.nameClass.isSome = true ↔
        (w.mainlayout = [] ∨ w.lastMessageIsOurs ≠ isOur ∨ messageId < -1)) := by
    intro w
    unfold createNewRow
    by_cases h : nameInserted w messageId isOur = true
    · have h2 := (cond w).mp h
      simp only [h, if_true]
      rw [if_pos h2]
      exact ⟨rfl, iff_of_true rfl h2⟩
    · have h2 : ¬ (w.mainlayout = [] ∨ w.lastMessageIsOurs ≠ isOur ∨ messageId < -1) :=
        fun h3 => h ((cond w).mpr h3)
      simp only [h]
      rw [if_neg h2]
      refine ⟨unstyled.1, iff_of_false ?_ h2⟩
      simp [unstyled.2]
  refine ⟨main, ?_⟩
  intro w ops hlast hid
  have hops : ops ≠ [] := by
    rintro rfl
    simp [lastIsOur] at hlast
  obtain ⟨hne, hflag⟩ := (run_invariant env w ops).2 hops
  rw [hlast] at hflag
  have hflag2 : (run env w ops).lastMessageIsOurs = isOur := Option.some.inj hflag
  have h2 : ¬ ((run env w ops).mainlayout = [] ∨ (run env w ops).lastMessageIsOurs ≠ isOur ∨
      messageId < -1) := by
    rintro (h | h | h)
    · exact hne h
    · exact h hflag2
    · omega
  obtain ⟨h3, h4⟩ := main (run env w ops)
  rw [if_neg h2] at h3
  refine ⟨h3, ?_⟩
  cases hc : (createNewRow env now name message messageId isOur (run env w ops)).1.nameClass with
  | none => rfl
  | some c => exact absurd (h4.mp (by simp [hc])) h2

/-- C2 at a concrete state: a second message of the same sender gets no name. -/
theorem createNewRow_name_witness :
    (createNewRow plainEnv [] ['B'] ['y'] 5 true
      (run plainEnv (Widget.new false) [Op.appendMessage [] ['B'] ['x'] 4 true])).1.nameText = [] ∧
    (createNewRow plainEnv [] ['B'] ['y'] 5 true
      (run plainEnv (Widget.new false) [Op.appendMessage [] ['B'] ['x'] 4 true])).1.nameClass =
        none :=
  (createNewRow_name plainEnv [] ['B'] ['y'] 5 true).2 (Widget.new false)
    [Op.appendMessage [] ['B'] ['x'] 4 true] (by decide) (by decide)

/-- C3: the styling of the message label is decided by `messageId` alone and partitions the
integers in three: action iff `messageId < -1`, error iff `messageId = 0`, regular message iff
`messageId = -1` or `1 ≤ messageId`; exactly one of the three stylings applies. -/
theorem createNewRow_styling (env : Env) (now name message : QString) (messageId : Int)
    (isOur : Bool) (w : Widget) :
    (messageId < -1 ↔
      (createNewRow env now name message messageId isOur w).1.IsAction
        (messageTextOf env message)) ∧
    (messageId = 0 ↔
      (createNewRow env now name message messageId isOur w).1.IsError
        (messageTextOf env message)) ∧
    ((messageId = -1 ∨ 1 ≤ messageId) ↔
      (createNewRow env now name message messageId isOur w).1.IsMessage
        (messageTextOf env message) messageId) ∧
    ((createNewRow env now name message messageId isOur w).1.messageClass = "msgAction" ∨
      (createNewRow env now name message messageId isOur w).1.messageClass = "msgError" ∨
      (createNewRow env now name message messageId isOur w).1.messageClass = "msgMessage") := by
  obtain ⟨h1, h2, h3, h4, -, -⟩ := createNewRow_fst_style env now name message messageId isOur w
  simp only [Row.IsAction, Row.IsError, Row.IsMessage, h1, h2, h3, h4]
  unfold styledRow
  by_cases ha : messageId < -1
  · have h0 : messageId ≠ 0 := by omega
    have hm : ¬ (messageId = -1 ∨ 1 ≤ messageId) := by omega
    simp [ha, h0, hm]
  · by_cases h0 : messageId = 0
    · subst h0
      simp
    · have hm : messageId = -1 ∨ 1 ≤ messageId := by omega
      simp [ha, h0, hm]

/-- C7: `appendAction` appends, after the separator line that `createNewRow` may add, an
action row (class `msgAction`, italic text) whose name label is `*` whatever the state, whose
body is built from `name ++ " " ++ message`; afterwards the flag equals `isOur`. -/
theorem appendAction_row (env : Env) (now name message : QString) (isOur : Bool) (w : Widget) :
    (appendAction env now name message isOur w).mainlayout =
      w.mainlayout ++ (if lineCreated w isOur then [Item.line] else []) ++
        [Item.row
          { nameText := ['*']
            nameClass := some (if isOur then "msgUserName" else "msgFriendName")
            nameMid := isOur
            messageClass := "msgAction"
            messageText :=
              "<i>".toList ++ messageTextOf env (name ++ [' '] ++ message) ++ "</i>".toList
            messageId := none
            messageColour := some Colour.darkGreen
            toolTip := none
            timeText := now }] ∧
    (appendAction env now name message isOur w).lastMessageIsOurs = isOur := by
  have hn : ∀ v : Widget, nameInserted v (-2) isOur = true := by
    intro v
    simp [nameInserted]
  have hl : lineCreated { w with scrollConnected := true } isOur = lineCreated w isOur := rfl
  constructor
  · simp only [appendAction, createNewRow, hn, if_true, hl]
    by_cases h : lineCreated w isOur = true <;> simp [h, styledRow]
  · simp [appendAction, createNewRow_flag]

theorem apply_from_empty (env : Env) (animationEnabled : Bool) (op : Op) :
    op.apply env (Widget.construct true animationEnabled) =
      op.apply env (Widget.construct false animationEnabled) := by
  cases op <;> rename_i isOur <;> cases isOur <;>
    simp [Op.apply, appendMessage, prependMessage, appendAction, createNewRow, Widget.construct,
      nameInserted, lineCreated]

/-- C5 (as the code has it): the layout produced by a sequence of calls on the freshly
constructed display never depends on the initial value of `lastMessageIsOurs`, and after at
least one call the whole state, the flag included, is the same for both initial values. -/
theorem initial_flag_irrelevant (env : Env) (animationEnabled : Bool) (ops : List Op) :
    (run env (Widget.construct true animationEnabled) ops).mainlayout =
      (run env (Widget.construct false animationEnabled) ops).mainlayout ∧
    (ops ≠ [] →
      run env (Widget.construct true animationEnabled) ops =
        run env (Widget.construct false animationEnabled) ops) := by
  cases ops with
  | nil => exact ⟨rfl, fun h => absurd rfl h⟩
  | cons op rest =>
    have h : run env (Widget.construct true animationEnabled) (op :: rest) =
        run env (Widget.construct false animationEnabled) (op :: rest) := by
      simp only [run, List.foldl_cons, apply_from_empty]
    exact ⟨by rw [h], fun _ => h⟩

/-- C5 (as the code has it) at a concrete sequence of two calls. -/
theorem initial_flag_irrelevant_witness :
    run plainEnv (Widget.construct true false)
        [Op.prependMessage [] ['B'] ['y'] 2 false, Op.appendAction [] ['A'] ['x'] true] =
      run plainEnv (Widget.construct false false)
        [Op.prependMessage [] ['B'] ['y'] 2 false, Op.appendAction [] ['A'] ['x'] true] :=
  (initial_flag_irrelevant plainEnv false
    [Op.prependMessage [] ['B'] ['y'] 2 false, Op.appendAction [] ['A'] ['x'] true]).2
    (by decide)

/-- C5 fails for the empty sequence of calls: the final value of the flag is then its initial
value, so it differs between the two initial values. -/
theorem initial_flag_kept_without_calls :
    (run plainEnv (Widget.construct true false) []).lastMessageIsOurs ≠
      (run plainEnv (Widget.construct false false) []).lastMessageIsOurs := by
  decide

/-- C8 (the defect): after `appendMessage(…, isOur = true)` and then
`prependMessage(…, isOur = false)` the layout is row, row, separator line: the two neighbouring
rows have different `isOur` values and no line between them, and the layout ends with a
separator line. -/
theorem prepend_separator_misplaced :
    (run plainEnv (Widget.new false)
      [Op.appendMessage [] ['A'] ['x'] 1 true, Op.prependMessage [] ['B'] ['y'] 2 false]).mainlayout =
      [Item.row
         { nameText := ['B'], nameClass := some "msgFriendName", nameMid := false,
           messageClass := "msgMessage", messageText := ['y'], messageId := some 2,
           messageColour := none, toolTip := none, timeText := [] },
       Item.row
         { nameText := ['A'], nameClass := some "msgUserName", nameMid := true,
           messageClass := "msgMessage", messageText := ['x'], messageId := some 1,
           messageColour := none, toolTip := none, timeText := [] },
       Item.line] := by
  decide

theorem apply_append_shape (env : Env) (w : Widget) (op : Op) (h : op.isAppend = true) :
    (op.apply env w).mainlayout.map Item.isLine =
      w.mainlayout.map Item.isLine ++
        ((if lineCreated w op.isOur then [true] else []) ++ [false]) := by
  cases op with
  | prependMessage now name message messageId isOur => simp [Op.isAppend] at h
  | appendMessage now name message messageId isOur =>
    have hl : lineCreated { w with scrollConnected := true } isOur = lineCreated w isOur := rfl
    simp only [Op.apply, appendMessage, createNewRow_layout, hl, Op.isOur]
    by_cases hc : lineCreated w isOur = true <;> simp [hc, Item.isLine]
  | appendAction now name message isOur =>
    have hl : lineCreated { w with scrollConnected := true } isOur = lineCreated w isOur := rfl
    simp only [Op.apply, appendAction, createNewRow_layout, hl, Op.isOur]
    by_cases hc : lineCreated w isOur = true <;> simp [hc, Item.isLine]

theorem run_append_only_shape (env : Env) (ops : List Op) :
    ∀ w : Widget, (∀ op ∈ ops, op.isAppend = true) →
      (run env w ops).mainlayout.map Item.isLine =
        w.mainlayout.map Item.isLine ++
          separated (if w.mainlayout = [] then none else some w.lastMessageIsOurs)
            (ops.map Op.isOur) := by
  induction ops with
  | nil => intro w _; simp [run, separated]
  | cons op ops ih =>
    intro w h
    have hop : op.isAppend = true := h op (List.mem_cons_self _ _)
    have hrest : ∀ o ∈ ops, o.isAppend = true := fun o ho => h o (List.mem_cons_of_mem _ ho)
    have hrun : run env w (op :: ops) = run env (op.apply env w) ops := rfl
    rw [hrun, ih (op.apply env w) hrest, apply_append_shape env w op hop, apply_flag,
      if_neg (apply_layout_ne_nil env w op), List.map_cons]
    by_cases hw : w.mainlayout = []
    · simp [hw, lineCreated, separated]
    · have hpos : 0 < w.mainlayout.length := List.length_pos.mpr hw
      cases hf : w.lastMessageIsOurs <;> cases hb : op.isOur <;>
        simp [hw, lineCreated, separated, hf, hpos]

/-- On a display filled by `appendMessage` and `appendAction` alone the separator lines are
where C8 wants them: exactly between neighbouring rows whose `isOur` values differ. -/
theorem append_only_separators (env : Env) (flag animationEnabled : Bool) (ops : List Op)
    (h : ∀ op ∈ ops, op.isAppend = true) :
    (run env (Widget.construct flag animationEnabled) ops).mainlayout.map Item.isLine =
      separated none (ops.map Op.isOur) := by
  have := run_append_only_shape env ops (Widget.construct flag animationEnabled) h
  simpa [Widget.construct] using this

/-! ## Scrolling -/

/-- C4 (as the code has it): `appendMessage` and `appendAction` leave the scroll handler
connected to the range change of the scrollbar and `prependMessage` leaves it disconnected.
So, whatever the animation setting is at that time, the next range change after an append
operation runs `moveScrollBarToBottom` on the new range, and after `prependMessage` it does
not run it: the position is only bounded to the new range and the animation is untouched.
When the handler runs with the setting off, the value becomes the new maximum; when it runs
with the setting on and the animation object exists, the animation is started from the
current position towards the new maximum. -/
theorem scroll_connection (env : Env) (now name message : QString) (messageId : Int)
    (isOur : Bool) (w : Widget) :
    (appendMessage env now name message messageId isOur w).scrollConnected = true ∧
    (appendAction env now name message isOur w).scrollConnected = true ∧
    (prependMessage env now name message messageId isOur w).scrollConnected = false ∧
    (∀ (animationEnabled : Bool) (min max : Int),
      rangeChanged animationEnabled min max
          (appendMessage env now name message messageId isOur w) =
        moveScrollBarToBottom animationEnabled min max
          { appendMessage env now name message messageId isOur w with
            scrollBar := w.scrollBar.setRange min max } ∧
      rangeChanged animationEnabled min max (appendAction env now name message isOur w) =
        moveScrollBarToBottom animationEnabled min max
          { appendAction env now name message isOur w with
            scrollBar := w.scrollBar.setRange min max } ∧
      rangeChanged animationEnabled min max
          (prependMessage env now name message messageId isOur w) =
        some { prependMessage env now name message messageId isOur w with
               scrollBar := w.scrollBar.setRange min max } ∧
      (rangeChanged animationEnabled min max
          (prependMessage env now name message messageId isOur w)).map
        (fun v => (v.scrollBar.value, v.animation)) =
          some (Max.max min (Min.min max w.scrollBar.value), w.animation)) ∧
    (∀ min max : Int, min ≤ max →
      (rangeChanged false min max (appendMessage env now name message messageId isOur w)).map
          (fun v => v.scrollBar.value) = some max ∧
      (rangeChanged false min max (appendAction env now name message isOur w)).map
          (fun v => v.scrollBar.value) = some max) ∧
    (∀ (min max : Int) (a : Animation), w.animation = some a →
      (rangeChanged true min max (appendMessage env now name message messageId isOur w)).map
          (fun v => v.animation) =
        some (some { a with keyValue0 := some (Max.max min (Min.min max w.scrollBar.value)),
                            keyValue1 := some max, started := true }) ∧
      (rangeChanged true min max (appendAction env now name message isOur w)).map
          (fun v => v.animation) =
        some (some { a with keyValue0 := some (Max.max min (Min.min max w.scrollBar.value)),
                            keyValue1 := some max, started := true })) := by
  refine ⟨?_, ?_, ?_, ?_, ?_, ?_⟩
  · simp [appendMessage, createNewRow_other]
  · simp [appendAction, createNewRow_other]
  · simp [prependMessage, createNewRow_other]
  · intro animationEnabled min max
    refine ⟨?_, ?_, ?_, ?_⟩
    · simp [rangeChanged, appendMessage, createNewRow_other]
    · simp [rangeChanged, appendAction, createNewRow_other]
    · simp [rangeChanged, prependMessage, createNewRow_other]
    · simp [rangeChanged, prependMessage, createNewRow_other, ScrollBar.setRange]
  · intro min max hle
    refine ⟨?_, ?_⟩
    · simp [rangeChanged, appendMessage, createNewRow_other, moveScrollBarToBottom,
        ScrollBar.setValue, ScrollBar.setRange, hle]
    · simp [rangeChanged, appendAction, createNewRow_other, moveScrollBarToBottom,
        ScrollBar.setValue, ScrollBar.setRange, hle]
  · intro min max a ha
    refine ⟨?_, ?_⟩
    · simp [rangeChanged, appendMessage, createNewRow_other, moveScrollBarToBottom,
        ScrollBar.setRange, ha]
    · simp [rangeChanged, appendAction, createNewRow_other, moveScrollBarToBottom,
        ScrollBar.setRange, ha]

/-- C4 (as the code has it) at concrete states: after `appendMessage` on a fresh display a
change of the range to `[0, 10]` moves the value to `10` when the setting is off, and starts
the animation from `0` to `10` when the setting is on and was on at construction. -/
theorem scroll_connection_witness :
    (rangeChanged false 0 10
        (appendMessage plainEnv [] ['A'] ['x'] 1 true (Widget.new false))).map
      (fun v => v.scrollBar.value) = some 10 ∧
    (rangeChanged true 0 10
        (appendMessage plainEnv [] ['A'] ['x'] 1 true (Widget.new true))).map
      (fun v => v.animation) =
        some (some { duration := 200, loopCount := 1, keyValue0 := some 0, keyValue1 := some 10,
                     started := true }) :=
  ⟨((scroll_connection plainEnv [] ['A'] ['x'] 1 true (Widget.new false)).2.2.2.2.1 0 10
      (by decide)).1,
   ((scroll_connection plainEnv [] ['A'] ['x'] 1 true (Widget.new true)).2.2.2.2.2 0 10
      { duration := 200, loopCount := 1, keyValue0 := none, keyValue1 := none, started := false }
      rfl).1⟩

/-- C4 fails for `prependMessage`: after it the handler is disconnected, and a range change
leaves the view where it was instead of moving it to the bottom. -/
theorem prependMessage_disconnects :
    (prependMessage plainEnv [] ['B'] ['y'] 2 false (Widget.new false)).scrollConnected = false ∧
    (rangeChanged false 0 10
        (prependMessage plainEnv [] ['B'] ['y'] 2 false (Widget.new false))).map
      (fun v => v.scrollBar.value) = some 0 := by
  decide

/-- C10 (the defect): when the animation setting is off at construction time and on at call
time, `moveScrollBarToBottom` takes the animated branch although the constructor created no
animation object; the same happens through the range-change signal after `appendMessage`. -/
theorem animation_used_uncreated (min max : Int) :
    (Widget.new false).animation = none ∧
    moveScrollBarToBottom true min max (Widget.new false) = none ∧
    rangeChanged true min max
      (appendMessage plainEnv [] ['A'] ['x'] 1 true (Widget.new false)) = none := by
  refine ⟨rfl, rfl, ?_⟩
  simp [rangeChanged, appendMessage, createNewRow_other, moveScrollBarToBottom, Widget.new,
    Widget.construct]

/-- In the non-animated branch `moveScrollBarToBottom` sets the scrollbar value from `max`
alone (bounded to the range of the scrollbar), whatever `min` is. -/
theorem moveScrollBarToBottom_plain (min max : Int) (w : Widget) :
    moveScrollBarToBottom false min max w =
      some { w with scrollBar := w.scrollBar.setValue max } := by
  simp [moveScrollBarToBottom]

/-- When the setting has the same value at construction time and at call time, the handler
never meets a missing animation object. -/
theorem moveScrollBarToBottom_same_setting (animationEnabled : Bool) (min max : Int)
    (ops : List Op) (env : Env) :
    (moveScrollBarToBottom animationEnabled min max
      (run env (Widget.new animationEnabled) ops)).isSome = true := by
  have h : (run env (Widget.new animationEnabled) ops).animation =
      (Widget.new animationEnabled).animation := by
    induction ops using List.reverseRecOn with
    | nil => rfl
    | append_singleton ops op ih =>
      rw [run_append, ← ih]
      cases op <;> simp [Op.apply, appendMessage, prependMessage, appendAction, createNewRow_other]
  cases animationEnabled
  · simp [moveScrollBarToBottom]
  · simp only [moveScrollBarToBottom, if_true, h]
    simp [Widget.new, Widget.construct]

/-! ## The pattern of `urlify` -/

theorem plusLoop_succ (m : QString → (QString → Option QString) → Option QString) (n : Nat)
    (s : QString) (k : QString → Option QString) :
    plusLoop m (n + 1) s k =
      m s (fun rest =>
        if rest.length < s.length then orTry (plusLoop m n rest k) (k rest) else k rest) := rfl

theorem matchK_nonSpace_cons (isSpace : Char → Bool) (d : Char) (rest : QString)
    (k : QString → Option QString) :
    matchK isSpace .nonSpace (d :: rest) k = if isSpace d then none else k rest := rfl

theorem matchK_plus (isSpace : Char → Bool) (a : Pattern) (s : QString)
    (k : QString → Option QString) :
    matchK isSpace (.plus a) s k = plusLoop (matchK isSpace a) (s.length + 1) s k := rfl

theorem plusLoop_nonSpace_aux (isSpace : Char → Bool) (r : QString) :
    ∀ n, r.length ≤ n →
      orTry (plusLoop (matchK isSpace .nonSpace) n r some) (some r) =
        some (r.dropWhile (fun d => !isSpace d)) := by
  induction r with
  | nil =>
    intro n _
    cases n with
    | zero => rfl
    | succ n => rfl
  | cons c r ih =>
    intro n hn
    obtain ⟨m, rfl⟩ : ∃ m, n = m + 1 := ⟨n - 1, by simp at hn; omega⟩
    have hm : r.length ≤ m := by simp at hn; omega
    rw [plusLoop_succ, matchK_nonSpace_cons]
    cases hc : isSpace c
    · have hlt : r.length < (c :: r).length := by simp
      simp only [Bool.false_eq_true, if_false, hlt, if_true]
      rw [ih m hm]
      simp [orTry, hc]
    · simp [orTry, hc]

theorem matchK_plus_nonSpace (isSpace : Char → Bool) (s : QString) :
    matchK isSpace (.plus .nonSpace) s some = afterRun isSpace s := by
  rw [matchK_plus]
  cases s with
  | nil => rfl
  | cons c r =>
    rw [plusLoop_succ, matchK_nonSpace_cons]
    cases hc : isSpace c
    · have hlt : r.length < (c :: r).length := by simp
      simp only [Bool.false_eq_true, if_false, hlt, if_true]
      rw [plusLoop_nonSpace_aux isSpace r (c :: r).length (Nat.le_of_lt hlt)]
      simp [afterRun, hc]
    · simp [afterRun, hc]

theorem matchK_text (isSpace : Char → Bool) (cs : List Char) :
    ∀ (c : Char) (s : QString) (k : QString → Option QString),
      matchK isSpace (Pattern.text c cs) s k = (stripPrefix (c :: cs) s).bind k := by
  induction cs with
  | nil =>
    intro c s k
    cases s with
    | nil => rfl
    | cons d s =>
      by_cases h : d = c <;> simp [Pattern.text, matchK, stripPrefix, h]
  | cons e cs ih =>
    intro c s k
    cases s with
    | nil => rfl
    | cons d s =>
      by_cases h : d = c
      · simp only [Pattern.text, matchK, h, if_true]
        rw [ih]
        simp [stripPrefix]
      · simp [Pattern.text, matchK, stripPrefix, h]

theorem stripPrefix_append (p q : List Char) :
    ∀ s : QString, stripPrefix (p ++ q) s = (stripPrefix p s).bind (stripPrefix q) := by
  induction p with
  | nil => intro s; rfl
  | cons c p ih =>
    intro s
    cases s with
    | nil => rfl
    | cons d s =>
      by_cases h : d = c <;> simp [stripPrefix, h, ih]

theorem stripPrefix_eq_some (p : List Char) :
    ∀ s r : QString, stripPrefix p s = some r ↔ s = p ++ r := by
  induction p with
  | nil => intro s r; simp [stripPrefix, eq_comm]
  | cons c p ih =>
    intro s r
    cases s with
    | nil => simp [stripPrefix]
    | cons d s =>
      by_cases h : d = c <;> simp [stripPrefix, h, ih]

/-- The backtracking matcher on the pattern of `urlify`: strip one of the scheme prefixes, then
a maximal run of one or more non-whitespace characters. -/
theorem matchK_urlPattern (isSpace : Char → Bool) (s : QString) :
    matchK isSpace urlPattern s some = (stripScheme s).bind (afterRun isSpace) := by
  have hp : ∀ r, matchK isSpace (.plus .nonSpace) r some = afterRun isSpace r :=
    matchK_plus_nonSpace isSpace
  have hK : ∀ r, matchK isSpace (.seq (Pattern.text ':' ['/', '/']) (.plus .nonSpace)) r some =
      (stripPrefix "://".toList r).bind (afterRun isSpace) := by
    intro r
    show matchK isSpace (Pattern.text ':' ['/', '/']) r
      (fun rest => matchK isSpace (.plus .nonSpace) rest some) = _
    rw [matchK_text]
    simp only [hp]
    rfl
  have hshape : matchK isSpace urlPattern s some =
      orTry
        ((stripPrefix "http".toList s).bind (fun r =>
          orTry (matchK isSpace (.lit 's') r (fun r2 =>
              (stripPrefix "://".toList r2).bind (afterRun isSpace)))
            ((stripPrefix "://".toList r).bind (afterRun isSpace))))
        ((stripPrefix "ftp".toList s).bind (fun r =>
          (stripPrefix "://".toList r).bind (afterRun isSpace))) := by
    show orTry
      (matchK isSpace (Pattern.text 'h' ['t', 't', 'p']) s (fun r =>
        orTry (matchK isSpace (.lit 's') r (fun r2 =>
            matchK isSpace (.seq (Pattern.text ':' ['/', '/']) (.plus .nonSpace)) r2 some))
          (matchK isSpace (.seq (Pattern.text ':' ['/', '/']) (.plus .nonSpace)) r some)))
      (matchK isSpace (Pattern.text 'f' ['t', 'p']) s (fun r =>
        matchK isSpace (.seq (Pattern.text ':' ['/', '/']) (.plus .nonSpace)) r some)) = _
    rw [matchK_text, matchK_text]
    simp only [hK]
    rfl
  have e1 : stripPrefix "http://".toList s =
      (stripPrefix "http".toList s).bind (stripPrefix "://".toList) :=
    stripPrefix_append "http".toList "://".toList s
  have e2 : stripPrefix "https://".toList s =
      (stripPrefix "http".toList s).bind (fun r =>
        (stripPrefix "s".toList r).bind (stripPrefix "://".toList)) := by
    rw [show "https://".toList = "http".toList ++ ("s".toList ++ "://".toList) from rfl,
      stripPrefix_append]
    congr 1
    funext r
    exact stripPrefix_append _ _ r
  have e3 : stripPrefix "ftp://".toList s =
      (stripPrefix "ftp".toList s).bind (stripPrefix "://".toList) :=
    stripPrefix_append "ftp".toList "://".toList s
  rw [hshape, stripScheme, e1, e2, e3]
  cases h : stripPrefix "http".toList s with
  | none =>
    simp only [orTry, Option.none_bind]
    cases stripPrefix "ftp".toList s <;> rfl
  | some r =>
    have hf : stripPrefix "ftp".toList s = none := by
      rw [(stripPrefix_eq_some _ _ _).mp h]
      rfl
    rw [hf]
    cases r with
    | nil => rfl
    | cons d r =>
      by_cases hd : d = 's'
      · subst hd
        have h1 : stripPrefix "://".toList ('s' :: r) = none := rfl
        have h2 : stripPrefix "s".toList ('s' :: r) = some r := rfl
        simp only [Option.some_bind, Option.none_bind, h1, h2, matchK, if_true]
        cases stripPrefix "://".toList r with
        | none => rfl
        | some v =>
          simp only [orTry, Option.some_bind]
          cases afterRun isSpace v <;> rfl
      · have h2 : stripPrefix "s".toList (d :: r) = none := by simp [stripPrefix, hd]
        simp only [Option.some_bind, Option.none_bind, h2, matchK, hd, if_false]
        cases stripPrefix "://".toList (d :: r) with
        | none => rfl
        | some v =>
          simp only [orTry, Option.some_bind]
          cases afterRun isSpace v <;> rfl

theorem stripScheme_eq_some (s r : QString) :
    stripScheme s = some r ↔ ∃ scheme ∈ schemes, s = scheme ++ r := by
  constructor
  · intro h
    unfold stripScheme orTry at h
    cases h1 : stripPrefix "http://".toList s with
    | some v =>
      rw [h1] at h
      cases h
      exact ⟨_, by simp [schemes], (stripPrefix_eq_some _ _ _).mp h1⟩
    | none =>
      rw [h1] at h
      cases h2 : stripPrefix "https://".toList s with
      | some v =>
        rw [h2] at h
        cases h
        exact ⟨_, by simp [schemes], (stripPrefix_eq_some _ _ _).mp h2⟩
      | none =>
        rw [h2] at h
        exact ⟨_, by simp [schemes], (stripPrefix_eq_some _ _ _).mp h⟩
  · rintro ⟨scheme, hmem, rfl⟩
    simp only [schemes, List.mem_cons, List.mem_singleton, List.not_mem_nil, or_false] at hmem
    rcases hmem with rfl | rfl | rfl <;> rfl

theorem dropWhile_run (isSpace : Char → Bool) (body rest : QString)
    (hbody : ∀ c ∈ body, isSpace c = false) (hrest : Maximal isSpace rest) :
    (body ++ rest).dropWhile (fun d => !isSpace d) = rest := by
  induction body with
  | nil =>
    cases rest with
    | nil => rfl
    | cons c r => simp [List.dropWhile, hrest c r rfl]
  | cons c body ih =>
    have hc : isSpace c = false := hbody c (List.mem_cons_self _ _)
    simp only [List.cons_append, List.dropWhile, hc, Bool.not_false]
    exact ih (fun d hd => hbody d (List.mem_cons_of_mem _ hd))

theorem afterRun_eq_some (isSpace : Char → Bool) (s rest : QString) :
    afterRun isSpace s = some rest ↔
      ∃ body : QString, body ≠ [] ∧ (∀ c ∈ body, isSpace c = false) ∧ s = body ++ rest ∧
        Maximal isSpace rest := by
  constructor
  · intro h
    cases s with
    | nil => simp [afterRun] at h
    | cons c r =>
      cases hc : isSpace c
      · simp only [afterRun, hc, Bool.false_eq_true, if_false, Option.some.injEq] at h
        refine ⟨c :: r.takeWhile (fun d => !isSpace d), by simp, ?_, ?_, ?_⟩
        · intro d hd
          rcases List.mem_cons.mp hd with rfl | hd
          · exact hc
          · simpa using List.mem_takeWhile_imp hd
        · rw [← h]
          simp [List.takeWhile_append_dropWhile]
        · intro d r2 hr
          rw [← h] at hr
          have := List.head_dropWhile_not (fun d => !isSpace d) r (by simp [hr])
          simpa [hr] using this
      · simp [afterRun, hc] at h
  · rintro ⟨body, hne, hbody, rfl, hmax⟩
    cases body with
    | nil => exact absurd rfl hne
    | cons c body =>
      have hc : isSpace c = false := hbody c (List.mem_cons_self _ _)
      simp only [List.cons_append, afterRun, hc, Bool.false_eq_true, if_false, Option.some.injEq]
      exact dropWhile_run isSpace body rest (fun d hd => hbody d (List.mem_cons_of_mem _ hd)) hmax

theorem afterRun_ne_none (isSpace : Char → Bool) (body rest : QString) (hne : body ≠ [])
    (hbody : ∀ c ∈ body, isSpace c = false) : afterRun isSpace (body ++ rest) ≠ none := by
  cases body with
  | nil => exact absurd rfl hne
  | cons c body =>
    have hc : isSpace c = false := hbody c (List.mem_cons_self _ _)
    simp [afterRun, hc]

/-- The matcher succeeds at the head of `s` with rest `rest` exactly when `s` is a match of
the pattern that cannot be extended, followed by `rest`. -/
theorem match_eq_some (isSpace : Char → Bool) (s rest : QString) :
    matchK isSpace urlPattern s some = some rest ↔
      ∃ u, IsUrl isSpace u ∧ Maximal isSpace rest ∧ s = u ++ rest := by
  rw [matchK_urlPattern]
  constructor
  · intro h
    cases hs : stripScheme s with
    | none => simp [hs] at h
    | some r =>
      rw [hs, Option.some_bind] at h
      obtain ⟨scheme, hmem, rfl⟩ := (stripScheme_eq_some _ _).mp hs
      obtain ⟨body, hne, hbody, rfl, hmax⟩ := (afterRun_eq_some _ _ _).mp h
      exact ⟨scheme ++ body, ⟨scheme, hmem, body, hne, hbody, rfl⟩, hmax, by simp⟩
  · rintro ⟨u, ⟨scheme, hmem, body, hne, hbody, rfl⟩, hmax, rfl⟩
    have hs : stripScheme (scheme ++ body ++ rest) = some (body ++ rest) :=
      (stripScheme_eq_some _ _).mpr ⟨scheme, hmem, by simp⟩
    rw [hs, Option.some_bind]
    exact (afterRun_eq_some _ _ _).mpr ⟨body, hne, hbody, rfl, hmax⟩

/-- The matcher fails at the head of `s` exactly when no match of the pattern starts there. -/
theorem match_eq_none (isSpace : Char → Bool) (s : QString) :
    matchK isSpace urlPattern s some = none ↔ ¬ StartsUrl isSpace s := by
  constructor
  · rintro h ⟨u, rest, ⟨scheme, hmem, body, hne, hbody, rfl⟩, rfl⟩
    rw [matchK_urlPattern] at h
    have hs : stripScheme (scheme ++ body ++ rest) = some (body ++ rest) :=
      (stripScheme_eq_some _ _).mpr ⟨scheme, hmem, by simp⟩
    rw [hs, Option.some_bind] at h
    exact afterRun_ne_none isSpace body rest hne hbody h
  · intro h
    cases hm : matchK isSpace urlPattern s some with
    | none => rfl
    | some rest =>
      obtain ⟨u, hu, -, rfl⟩ := (match_eq_some _ _ _).mp hm
      exact absurd ⟨u, rest, hu, rfl⟩ h

theorem isUrl_ne_nil (isSpace : Char → Bool) (u : QString) (h : IsUrl isSpace u) : u ≠ [] := by
  obtain ⟨scheme, hmem, body, hne, -, rfl⟩ := h
  simp [hne]

/-- The pattern of `urlify` never matches the empty text. -/
theorem matchAt_urlPattern_pos (isSpace : Char → Bool) (s : QString) (n : Nat)
    (h : matchAt isSpace urlPattern s = some n) : 0 < n := by
  unfold matchAt at h
  cases hm : matchK isSpace urlPattern s some with
  | none => simp [hm] at h
  | some rest =>
    obtain ⟨u, hu, -, rfl⟩ := (match_eq_some isSpace s rest).mp hm
    have hpos : 0 < u.length := List.length_pos.mpr (isUrl_ne_nil isSpace u hu)
    simp only [hm, Option.map_some', Option.some.injEq, List.length_append] at h
    omega

/-! ## Global replacement -/

theorem replaceGo_skip (isSpace : Char → Bool) (p : Pattern) (after : QString → QString)
    (pre rest : QString) :
    replaceGo isSpace p after (pre ++ rest) pre.length = replaceGo isSpace p after rest 0 := by
  induction pre with
  | nil => rfl
  | cons c pre ih => simpa [replaceGo] using ih

theorem urlify_nil (isSpace : Char → Bool) : urlify isSpace [] = [] := rfl

/-- Where no match starts, `urlify` copies the character and goes on. -/
theorem urlify_text (isSpace : Char → Bool) (c : Char) (s : QString)
    (h : ¬ StartsUrl isSpace (c :: s)) : urlify isSpace (c :: s) = c :: urlify isSpace s := by
  have hm : matchAt isSpace urlPattern (c :: s) = none := by
    simp [matchAt, (match_eq_none isSpace (c :: s)).mpr h]
  simp [urlify, replaceRegex, replaceGo, hm]

/-- Where a match starts, `urlify` emits the anchor for the maximal match and goes on behind
it. -/
theorem urlify_link (isSpace : Char → Bool) (u rest : QString) (hu : IsUrl isSpace u)
    (hmax : Maximal isSpace rest) :
    urlify isSpace (u ++ rest) = anchor u ++ urlify isSpace rest := by
  have hk : matchK isSpace urlPattern (u ++ rest) some = some rest :=
    (match_eq_some isSpace (u ++ rest) rest).mpr ⟨u, hu, hmax, rfl⟩
  cases u with
  | nil => exact absurd rfl (isUrl_ne_nil isSpace [] hu)
  | cons c u =>
    have hm : matchAt isSpace urlPattern (c :: (u ++ rest)) = some (u.length + 1) := by
      have hk2 : matchK isSpace urlPattern (c :: (u ++ rest)) some = some rest := hk
      simp only [matchAt, hk2, Option.map_some', List.length_cons, List.length_append]
      congr 1
      omega
    have htake : (c :: (u ++ rest)).take (u.length + 1) = c :: u := by simp
    show replaceGo isSpace urlPattern anchor (c :: (u ++ rest)) 0 = _
    simp only [replaceGo, hm, htake, replaceGo_skip]
    rfl

theorem urlify_of_segmented (isSpace : Char → Bool) (s : QString) (ps : List Piece)
    (h : Segmented isSpace s ps) : urlify isSpace s = render ps := by
  induction h with
  | nil => rfl
  | text c s ps hno _ ih => rw [urlify_text isSpace c s hno, ih]; rfl
  | link u rest ps hu hmax _ ih => rw [urlify_link isSpace u rest hu hmax, ih]; rfl

theorem segmented_exists (isSpace : Char → Bool) :
    ∀ (n : Nat) (s : QString), s.length ≤ n → ∃ ps, Segmented isSpace s ps := by
  intro n
  induction n with
  | zero =>
    intro s hs
    have : s = [] := List.length_eq_zero.mp (Nat.le_zero.mp hs)
    exact ⟨[], this ▸ Segmented.nil⟩
  | succ n ih =>
    intro s hs
    cases s with
    | nil => exact ⟨[], Segmented.nil⟩
    | cons c s =>
      cases hm : matchK isSpace urlPattern (c :: s) some with
      | none =>
        obtain ⟨ps, hps⟩ := ih s (by simpa using hs)
        exact ⟨_, Segmented.text c s ps ((match_eq_none isSpace _).mp hm) hps⟩
      | some rest =>
        obtain ⟨u, hu, hmax, he⟩ := (match_eq_some isSpace _ _).mp hm
        have hlen : rest.length ≤ n := by
          have h1 : (c :: s).length = u.length + rest.length := by rw [he, List.length_append]
          have h2 : 0 < u.length := List.length_pos.mpr (isUrl_ne_nil isSpace u hu)
          simp only [List.length_cons] at h1 hs
          omega
        obtain ⟨ps, hps⟩ := ih rest hlen
        exact ⟨_, he ▸ Segmented.link u rest ps hu hmax hps⟩

theorem urlify_no_match (isSpace : Char → Bool) (s : QString)
    (h : ∀ pre suf, s = pre ++ suf → ¬ StartsUrl isSpace suf) : urlify isSpace s = s := by
  induction s with
  | nil => rfl
  | cons c s ih =>
    rw [urlify_text isSpace c s (h [] (c :: s) rfl), ih]
    intro pre suf he
    exact h (c :: pre) suf (by rw [he]; rfl)

theorem segmented_mem (isSpace : Char → Bool) (s : QString) (ps : List Piece)
    (h : Segmented isSpace s ps) :
    ∀ p ∈ ps, (∀ c, p = Piece.text c → c ∈ s) ∧ (∀ u, p = Piece.link u → ∀ c ∈ u, c ∈ s) := by
  induction h with
  | nil => intro p hp; cases hp
  | text c s ps _ _ ih =>
    intro p hp
    rcases List.mem_cons.mp hp with rfl | hp
    · refine ⟨?_, ?_⟩
      · intro d hd
        cases hd
        exact List.mem_cons_self _ _
      · intro u hu
        cases hu
    · exact ⟨fun d hd => List.mem_cons_of_mem _ ((ih p hp).1 d hd),
        fun u hu d hd => List.mem_cons_of_mem _ ((ih p hp).2 u hu d hd)⟩
  | link u rest ps _ _ _ ih =>
    intro p hp
    rcases List.mem_cons.mp hp with rfl | hp
    · refine ⟨?_, ?_⟩
      · intro d hd
        cases hd
      · intro v hv d hd
        cases hv
        exact List.mem_append_left _ hd
    · exact ⟨fun d hd => List.mem_append_right _ ((ih p hp).1 d hd),
        fun v hv d hd => List.mem_append_right _ ((ih p hp).2 v hv d hd)⟩

/-- The output of `toHtmlEscaped` contains none of `<`, `>` and `"`. -/
theorem toHtmlEscaped_clean (m : QString) : ∀ c ∈ toHtmlEscaped m, isMarkup c = false := by
  induction m with
  | nil => intro c hc; cases hc
  | cons d m ih =>
    intro c hc
    simp only [toHtmlEscaped, List.mem_append] at hc
    rcases hc with hc | hc
    · split_ifs at hc with h1 h2 h3 h4
      · revert c; decide
      · revert c; decide
      · revert c; decide
      · revert c; decide
      · rw [List.mem_singleton] at hc
        subst hc
        simp [isMarkup, h1, h2, h4]
    · exact ih c hc

/-! ## Linkification and escaping -/

/-- C6: `urlify s` is `s` with each leftmost, non-overlapping, maximal match `u` of the pattern
replaced by `<a href="u">u</a>` (the markup is spelled out in `Piece.render`, with the same
text `u` as `href` value and as link text) and every other character kept in place: the input
has a decomposition into such matches and the characters outside them, and `urlify s` is the
rendering of every such decomposition; when no match starts anywhere in `s`,
`urlify s = s`. -/
theorem urlify_linkifies (isSpace : Char → Bool) (s : QString) :
    (∃ ps, Segmented isSpace s ps) ∧
    (∀ ps, Segmented isSpace s ps → urlify isSpace s = render ps) ∧
    ((∀ pre suf, s = pre ++ suf → ¬ StartsUrl isSpace suf) → urlify isSpace s = s) :=
  ⟨segmented_exists isSpace s.length s le_rfl, urlify_of_segmented isSpace s,
    urlify_no_match isSpace s⟩

/-- C6 at a concrete input, through its decomposition into two characters and one link. -/
theorem urlify_linkifies_witness :
    urlify asciiSpace "a http://x".toList = "a <a href=\"http://x\">http://x</a>".toList :=
  (urlify_linkifies asciiSpace "a http://x".toList).2.1
    [Piece.text 'a', Piece.text ' ', Piece.link "http://x".toList]
    (Segmented.text 'a' _ _ ((match_eq_none asciiSpace _).mp (by decide))
      (Segmented.text ' ' _ _ ((match_eq_none asciiSpace _).mp (by decide))
        (Segmented.link "http://x".toList [] []
          ⟨"http://".toList, by decide, ['x'], by decide, by decide, rfl⟩
          (fun _ _ h => by cases h) Segmented.nil)))

/-- C9: the message text is built by escaping first and linkifying afterwards, and in
`urlify (toHtmlEscaped m)` the characters `<`, `>` and `"` occur only in the inserted tags:
the result is the rendering of pieces none of which carries such a character, neither as a
copied character nor inside the `href` value or the link text. -/
theorem escaped_markup_contained (env : Env) (m : QString) :
    messageTextOf env m =
      replaceChar (Char.ofNat 10) "<br>".toList
        (env.smilify (urlify env.isSpace (toHtmlEscaped m))) ∧
    ∃ ps, Segmented env.isSpace (toHtmlEscaped m) ps ∧
      urlify env.isSpace (toHtmlEscaped m) = render ps ∧ ∀ p ∈ ps, p.Clean := by
  refine ⟨rfl, ?_⟩
  obtain ⟨ps, hps⟩ := segmented_exists env.isSpace (toHtmlEscaped m).length _ le_rfl
  refine ⟨ps, hps, urlify_of_segmented _ _ _ hps, ?_⟩
  intro p hp
  obtain ⟨h1, h2⟩ := segmented_mem _ _ _ hps p hp
  cases p with
  | text c => exact toHtmlEscaped_clean m c (h1 c rfl)
  | link u => exact fun c hc => toHtmlEscaped_clean m c (h2 u rfl c hc)

end MessageDisplay
